import Mathlib

/-!
Verification of the Snow Leopard TypeScript client (`snowleopard_ts`).

The development embeds the two core components of the repository:

* `src/models.ts` — the discriminated parser (`parse` / `parseType`) over
  raw JSON values;
* `src/client.ts` — the newline-delimited JSON streaming decoder inside
  `SnowLeopardClient.response`, the HTTP-status handling of `retrieve`,
  `buildPath`, and the constructor's timeout defaulting.

JavaScript values are modelled by the inductive `JsonValue`; text that the
streaming decoder manipulates is modelled as `List Char` (the characters of
the already-byte-decoded chunk text); JavaScript exceptions are modelled by
`Except String`, the `String` being the thrown `Error`'s message.
-/

/-- A raw JSON value as delivered by `response.json()` / `JSON.parse`.
Numbers are modelled as integers (the claims only ever use numeric
truthiness, which on integers is `≠ 0`). -/
inductive JsonValue where
  | null : JsonValue
  | bool : Bool → JsonValue
  | num : Int → JsonValue
  | str : String → JsonValue
  | arr : List JsonValue → JsonValue
  | obj : List (String × JsonValue) → JsonValue
deriving Repr

/-- Field access `obj.key` on an object; `none` models JavaScript
`undefined` for an absent key. -/
def JsonValue.get (v : JsonValue) (key : String) : Option JsonValue :=
  match v with
  | .obj fields => fields.lookup key
  | _ => none

/-- JavaScript truthiness of a value (`Boolean(v)`).  Objects and arrays
are always truthy; `null`, `false`, `0` and `""` are falsy. -/
def truthy : JsonValue → Bool
  | .null => false
  | .bool b => b
  | .num n => n != 0
  | .str s => s != ""
  | .arr _ => true
  | .obj _ => true

/-- Truthiness of `obj.key` where the key may be absent (`undefined` is
falsy). -/
def truthyOpt : Option JsonValue → Bool
  | none => false
  | some v => truthy v

mutual
/-- JavaScript string coercion (`'' + v`) used by
`'Unknown response type ' + obj.__type__`: strings pass through, numbers
and booleans print, arrays join their elements with `,` (with `null`
rendered empty inside a join, per `Array.prototype.join`), plain objects
render as `[object Object]`. -/
def jsToString : JsonValue → String
  | .null => "null"
  | .bool b => if b then "true" else "false"
  | .num n => toString n
  | .str s => s
  | .arr xs => jsJoin xs
  | .obj _ => "[object Object]"

/-- `Array.prototype.join(',')`, where `null` elements render as the
empty string. -/
def jsJoin : List JsonValue → String
  | [] => ""
  | [x] => jsJoinElem x
  | x :: xs => jsJoinElem x ++ "," ++ jsJoin xs

/-- One element of a join: `null` renders empty. -/
def jsJoinElem : JsonValue → String
  | .null => ""
  | v => jsToString v
end

/-- The seven tag strings appearing as `case` labels in the `switch` of
`parseType` (src/models.ts, lines 94–111): `apiError`, `retrieveResponse`,
`errorSchemaData`, `responseStart`, `responseData`, `earlyTermination`,
`responseResult`.  Note that `schemaData` is *not* among them. -/
def caseTags : List String :=
  ["apiError", "retrieveResponse", "errorSchemaData", "responseStart",
   "responseData", "earlyTermination", "responseResult"]

/-- The eight discriminator tags named by the data-model invariant
(spec §3): the seven `switch` cases plus `schemaData`. -/
def specTags : List String :=
  ["apiError", "retrieveResponse", "errorSchemaData", "schemaData",
   "responseStart", "responseData", "earlyTermination", "responseResult"]

/-- `parseType` from src/models.ts: throws `Missing __type__ field` when
`obj.__type__` is absent or falsy, dispatches on the tag through the
`switch`, and throws `Unknown response type <tag>` from the `default`
branch.  Only string tags can match a `case` label (strict equality). -/
def parseType (o : JsonValue) : Except String JsonValue :=
  match o.get "__type__" with
  | none => .error "Missing __type__ field"
  | some tag =>
    if truthy tag then
      match tag with
      | .str s =>
        if caseTags.contains s then .ok o
        else .error ("Unknown response type " ++ s)
      | other => .error ("Unknown response type " ++ jsToString other)
    else .error "Missing __type__ field"

mutual
/-- `parse` from src/models.ts: `null` maps to `null`, a non-array object
goes through `parseType`, an array maps `parse` over its elements
(`obj.map(parse)`, aborting at the first element that throws), and any
primitive is returned unchanged. -/
def parse : JsonValue → Except String JsonValue
  | .null => .ok .null
  | .obj fields => parseType (.obj fields)
  | .arr xs => do
      let ys ← parseList xs
      return .arr ys
  | .bool b => .ok (.bool b)
  | .num n => .ok (.num n)
  | .str s => .ok (.str s)

/-- Element-wise `parse` over an array, propagating the first failure —
the semantics of `obj.map(parse)` when the callback may throw. -/
def parseList : List JsonValue → Except String (List JsonValue)
  | [] => .ok []
  | x :: xs => do
      let y ← parse x
      let ys ← parseList xs
      return (y :: ys)
end

/-! ## Streaming line decoder (src/client.ts, `response`, lines 551–587)

Chunks are modelled as the character sequences produced by
`decoder.decode(value, {stream: true})`; the decoder's character-level
behaviour is what the line-splitting logic consumes.  `JSON.parse` is a
platform builtin, not repository code, so the decoder is parametrised by
an arbitrary JSON text parser `jp`; the claims' hypotheses ("well-formed
record", "record that fails JSON decoding") are phrased through `jp`. -/

/-- The character class removed by JavaScript `String.prototype.trim`
(restricted to the characters relevant here). -/
def isJsWhitespace (c : Char) : Bool :=
  c = ' ' || c = '\t' || c = '\n' || c = '\r' || c = '\x0b' || c = '\x0c'

/-- `line.trim()` is falsy exactly when the line is all whitespace. -/
def isBlank (s : List Char) : Bool :=
  s.all isJsWhitespace

/-- `buffer.split('\n')` on character lists: the list of `\n`-separated
segments, always non-empty, with the separators removed. -/
def splitNl : List Char → List (List Char)
  | [] => [[]]
  | c :: cs =>
    if c = '\n' then [] :: splitNl cs
    else
      match splitNl cs with
      | [] => [[c]]
      | s :: ss => (c :: s) :: ss

/-- The body of the `try` in the per-line loop (client.ts lines 566–571):
`JSON.parse(line)` then `parse`; any thrown error is caught and the line
contributes nothing (`none`). -/
def tryParseLine (jp : List Char → Except String JsonValue)
    (line : List Char) : Option JsonValue :=
  match jp line with
  | .error _ => none
  | .ok v =>
    match parse v with
    | .error _ => none
    | .ok w => some w

/-- One line of the loop: the `if (line.trim())` guard around the `try`
(client.ts lines 565–572). -/
def processLine (jp : List Char → Except String JsonValue)
    (line : List Char) : Option JsonValue :=
  if isBlank line then none else tryParseLine jp line

/-- One chunk arrival (client.ts lines 560–573): append the decoded
chunk to the buffer, split on `'\n'`, pop the last segment back into the
buffer (`buffer = lines.pop() || ''`), and emit the parses of the
remaining complete lines, skipping blank or malformed ones. -/
def feed (jp : List Char → Except String JsonValue)
    (buffer chunk : List Char) : List JsonValue × List Char :=
  let segs := splitNl (buffer ++ chunk)
  (segs.dropLast.filterMap (processLine jp), segs.getLastD [])

/-- The final-buffer flush after the read loop (client.ts lines 580–587):
`if (buffer.trim())` then the same parse-and-drop-on-error `try`. -/
def flushBuffer (jp : List Char → Except String JsonValue)
    (buffer : List Char) : List JsonValue :=
  if isBlank buffer then [] else (tryParseLine jp buffer).toList

/-- The read loop from a given buffer state: each chunk is fed in
arrival order, and stream completion flushes the remaining buffer. -/
def runChunks (jp : List Char → Except String JsonValue) :
    List (List Char) → List Char → List JsonValue
  | [], buffer => flushBuffer jp buffer
  | c :: cs, buffer =>
    let fed := feed jp buffer c
    fed.1 ++ runChunks jp cs fed.2

/-- The complete decoded output of `response`'s streaming loop for a
given sequence of text chunks, starting from the empty buffer. -/
def processChunks (jp : List Char → Except String JsonValue)
    (chunks : List (List Char)) : List JsonValue :=
  runChunks jp chunks []

/-- The whole-text semantics the decoder refines: split the entire
delivered text on `'\n'` and process every segment with the same
skip-blank / drop-on-error line policy. -/
def decodeAll (jp : List Char → Except String JsonValue)
    (s : List Char) : List JsonValue :=
  (splitNl s).filterMap (processLine jp)

/-- The wire form of a list of records: each record followed by the
`'\n'` terminator, concatenated. -/
def wire (records : List (List Char)) : List Char :=
  (records.map (fun r => r ++ ['\n'])).flatten

/-! ## Non-streaming retrieve, path building, timeout defaulting
(src/client.ts) -/

/-- The already-awaited result of `fetch` as `retrieve` consumes it: the
HTTP status and the value `response.json()` resolves to. -/
structure HttpResponse where
  status : Nat
  body : JsonValue

/-- `parseRetrieve` (client.ts lines 468–474): `parse` wrapped so that a
parse failure is rethrown as `Failed to parse response: Error: <msg>`. -/
def parseRetrieve (data : JsonValue) : Except String JsonValue :=
  match parse data with
  | .ok v => .ok v
  | .error e => .error ("Failed to parse response: Error: " ++ e)

/-- The status handling and body parsing of `retrieve` (client.ts lines
501–506): any status other than 200 and 409 throws `HTTP Error: <status>`;
otherwise the JSON body is read and passed to `parseRetrieve`.  The outer
`catch` (lines 507–515) rethrows every error unchanged, so it is the
identity on this model. -/
def retrieveResult (resp : HttpResponse) : Except String JsonValue :=
  if resp.status ≠ 200 ∧ resp.status ≠ 409 then
    .error ("HTTP Error: " ++ toString resp.status)
  else
    parseRetrieve resp.body

/-- `buildPath` (client.ts lines 432–438): a falsy `datafileId`
(`undefined`, modelled `none`, or the empty string) selects the bare
endpoint; otherwise the `datafiles/{id}/` form. -/
def buildPath (datafileId : Option String) (endpoint : String) : String :=
  match datafileId with
  | none => endpoint
  | some id =>
    if id = "" then endpoint
    else "datafiles/" ++ id ++ "/" ++ endpoint

/-- The URL of non-streaming `retrieve` (client.ts line 487). -/
def retrieveUrl (baseURL : String) (datafileId : Option String) : String :=
  baseURL ++ "/" ++ buildPath datafileId "retrieve"

/-- The URL of streaming `response` (client.ts line 529). -/
def responseUrl (baseURL : String) (datafileId : Option String) : String :=
  baseURL ++ "/" ++ buildPath datafileId "response"

/-- The `timeout` constructor option: each component may be absent
(`none`) or a supplied number. -/
structure TimeoutOptions where
  connect : Option Int
  read : Option Int
  write : Option Int

/-- The resolved `this.timeout` of a constructed client. -/
structure ResolvedTimeout where
  connect : Int
  read : Int
  write : Int
deriving Repr, DecidableEq

/-- JavaScript `x || d` for an optionally-present number `x`: absent,
or present and equal to 0 (falsy), yields the default. -/
def jsOrNum (x : Option Int) (d : Int) : Int :=
  match x with
  | none => d
  | some n => if n = 0 then d else n

/-- The timeout defaulting in the constructor (client.ts lines 420–424):
`options?.timeout?.connect || 5000` and so on for `read` and `write`. -/
def resolveTimeout (timeout : Option TimeoutOptions) : ResolvedTimeout :=
  { connect := jsOrNum (timeout.bind (·.connect)) 5000
    read := jsOrNum (timeout.bind (·.read)) 600000
    write := jsOrNum (timeout.bind (·.write)) 10000 }

/-! ## Per-stream lifecycle machine (client.ts lines 551–587)

The `response` generator's read loop as a state machine.  While the
reader is held, each iteration either receives a chunk, sees `done`
(normal end of stream), propagates a read error, or is abandoned by the
consumer (the `for await` loop breaks, running the generator's `finally`
blocks).  In every one of the last three cases control leaves the
`try { while ... }` and the `finally` executes `reader.releaseLock()`;
the normal end additionally flushes the buffer before the generator
returns.  After any of them the generator is finished: no further
`reader.read()` happens. -/

/-- One interaction of the read loop with its environment. -/
inductive StreamEvent where
  | chunk (data : List Char)
  | eof
  | readError
  | abandon
deriving Repr, DecidableEq

/-- The per-stream lifecycle: `reading` holds the current text buffer;
`closed` is the state after control has left the read loop. -/
inductive StreamPhase where
  | reading (buffer : List Char)
  | closed
deriving Repr, DecidableEq

/-- The machine state: the lifecycle phase plus whether
`reader.releaseLock()` has run. -/
structure DecoderMachine where
  phase : StreamPhase
  released : Bool
deriving Repr, DecidableEq

/-- The state a fresh `response` stream starts in: reading with an empty
buffer, reader lock held (client.ts lines 551–553). -/
def initMachine : DecoderMachine :=
  { phase := .reading [], released := false }

/-- One step of the read loop: a chunk is fed through `feed`; `done`
flushes and leaves the loop through `finally`; a read error and consumer
abandonment leave the loop through `finally` without flushing.  In the
`closed` phase nothing happens: the generator is finished and performs
no further reads. -/
def stepMachine (jp : List Char → Except String JsonValue)
    (m : DecoderMachine) (e : StreamEvent) : DecoderMachine × List JsonValue :=
  match m.phase with
  | .closed => (m, [])
  | .reading buffer =>
    match e with
    | .chunk d =>
      let fed := feed jp buffer d
      ({ phase := .reading fed.2, released := m.released }, fed.1)
    | .eof => ({ phase := .closed, released := true }, flushBuffer jp buffer)
    | .readError => ({ phase := .closed, released := true }, [])
    | .abandon => ({ phase := .closed, released := true }, [])

/-- Run the machine over a sequence of events from a given state,
collecting everything yielded. -/
def runMachine (jp : List Char → Except String JsonValue)
    (m : DecoderMachine) : List StreamEvent → DecoderMachine × List JsonValue
  | [] => (m, [])
  | e :: es =>
    let st := stepMachine jp m e
    let rest := runMachine jp st.1 es
    (rest.1, st.2 ++ rest.2)

/-- An event that makes control leave the read loop. -/
def terminalEvent : StreamEvent → Bool
  | .chunk _ => false
  | _ => true

/-- A tiny concrete JSON text parser used to instantiate the decoder
theorems on closed inputs: the one-character record `a` parses to the
JSON number `1`, the record `c` parses to `2`, and every other line is
malformed. -/
def jpDemo : List Char → Except String JsonValue :=
  fun s =>
    if s = ['a'] then .ok (.num 1)
    else if s = ['c'] then .ok (.num 2)
    else .error "malformed"

/-! ### Lemmas about `splitNl` -/

theorem splitNl_ne_nil (s : List Char) : splitNl s ≠ [] := by
  induction s with
  | nil => simp [splitNl]
  | cons c cs ih =>
    simp only [splitNl]
    split
    · simp
    · split
      · simp
      · simp

theorem splitNl_no_nl (s : List Char) (h : '\n' ∉ s) : splitNl s = [s] := by
  induction s with
  | nil => rfl
  | cons c cs ih =>
    simp only [List.mem_cons, not_or] at h
    have hc : ¬ c = '\n' := fun hh => h.1 hh.symm
    simp only [splitNl, if_neg hc, ih h.2]

theorem splitNl_getLastD_no_nl (s : List Char) :
    '\n' ∉ (splitNl s).getLastD [] := by
  induction s with
  | nil => simp [splitNl]
  | cons c cs ih =>
    simp only [splitNl]
    split
    · rwa [List.getLastD_cons]
    · rename_i hc
      cases hs : splitNl cs with
      | nil => exact absurd hs (splitNl_ne_nil cs)
      | cons s ss =>
        rw [hs] at ih
        cases ss with
        | nil =>
          simp only [List.getLastD_cons, List.getLastD_nil] at ih ⊢
          simp only [List.mem_cons, not_or]
          exact ⟨fun h => hc h.symm, ih⟩
        | cons u us =>
          rw [List.getLastD_cons, List.getLastD_cons] at ih ⊢
          exact ih

theorem splitNl_append (a b : List Char) :
    splitNl (a ++ b) =
      (splitNl a).dropLast ++
        List.modifyHead (fun s => (splitNl a).getLastD [] ++ s) (splitNl b) := by
  induction a with
  | nil =>
    cases hb : splitNl b with
    | nil => exact absurd hb (splitNl_ne_nil b)
    | cons t ts =>
      simp only [List.nil_append, hb, splitNl, List.dropLast_single,
        List.getLastD_cons, List.getLastD_nil, List.modifyHead_cons]
  | cons c a ih =>
    simp only [List.cons_append, splitNl, List.append_eq]
    split
    · rename_i hc
      rw [List.getLastD_cons,
        List.dropLast_cons_of_ne_nil (splitNl_ne_nil a), List.cons_append, ih]
    · rename_i hc
      cases hab : splitNl (a ++ b) with
      | nil => exact absurd hab (splitNl_ne_nil (a ++ b))
      | cons t ts =>
        rw [hab] at ih
        cases ha : splitNl a with
        | nil => exact absurd ha (splitNl_ne_nil a)
        | cons s ss =>
          rw [ha] at ih
          cases ss with
          | nil =>
            cases hb : splitNl b with
            | nil => exact absurd hb (splitNl_ne_nil b)
            | cons u us =>
              rw [hb] at ih
              simp only [List.dropLast_single, List.nil_append,
                List.getLastD_cons, List.getLastD_nil,
                List.modifyHead_cons] at ih ⊢
              injection ih with h1 h2
              subst h1; subst h2
              simp
          | cons u us =>
            simp only [List.dropLast_cons₂, List.getLastD_cons,
              List.cons_append] at ih ⊢
            injection ih with h1 h2
            subst h1; subst h2
            rfl

theorem flushBuffer_eq_toList (jp : List Char → Except String JsonValue)
    (buffer : List Char) :
    flushBuffer jp buffer = (processLine jp buffer).toList := by
  unfold flushBuffer processLine
  split <;> rfl

theorem runChunks_eq_decodeAll (jp : List Char → Except String JsonValue)
    (chunks : List (List Char)) :
    ∀ buffer : List Char, '\n' ∉ buffer →
      runChunks jp chunks buffer = decodeAll jp (buffer ++ chunks.flatten) := by
  induction chunks with
  | nil =>
    intro buffer hb
    simp only [runChunks, List.flatten_nil, List.append_nil, decodeAll,
      splitNl_no_nl buffer hb, List.filterMap_cons, List.filterMap_nil]
    rw [flushBuffer_eq_toList]
    cases processLine jp buffer <;> rfl
  | cons c cs ih =>
    intro buffer hb
    simp only [runChunks, feed, List.flatten_cons, decodeAll]
    rw [ih _ (splitNl_getLastD_no_nl (buffer ++ c)), ← List.append_assoc]
    rw [splitNl_append (buffer ++ c) cs.flatten, List.filterMap_append]
    congr 1
    simp only [decodeAll]
    rw [splitNl_append ((splitNl (buffer ++ c)).getLastD []) cs.flatten,
      splitNl_no_nl _ (splitNl_getLastD_no_nl (buffer ++ c))]
    simp

theorem processChunks_eq_decodeAll (jp : List Char → Except String JsonValue)
    (chunks : List (List Char)) :
    processChunks jp chunks = decodeAll jp chunks.flatten := by
  rw [processChunks, runChunks_eq_decodeAll jp chunks [] (by simp), List.nil_append]

theorem splitNl_record (r : List Char) (h : '\n' ∉ r) (t : List Char) :
    splitNl (r ++ '\n' :: t) = r :: splitNl t := by
  induction r with
  | nil => simp [splitNl]
  | cons c r ih =>
    simp only [List.mem_cons, not_or] at h
    have hc : ¬ c = '\n' := fun hh => h.1 hh.symm
    simp only [List.cons_append, splitNl, if_neg hc, List.append_eq, ih h.2]

theorem splitNl_wire (records : List (List Char))
    (h : ∀ r ∈ records, '\n' ∉ r) :
    splitNl (wire records) = records ++ [[]] := by
  induction records with
  | nil => rfl
  | cons r rs ih =>
    simp only [wire, List.map_cons, List.flatten_cons, List.append_assoc,
      List.singleton_append]
    rw [splitNl_record r (h r (by simp)) _]
    rw [show ((rs.map (fun r => r ++ ['\n'])).flatten) = wire rs from rfl]
    rw [ih (fun x hx => h x (by simp [hx]))]
    rfl

theorem filterMap_eq_of_map_eq_some {α β : Type _} (f : α → Option β) :
    ∀ (l : List α) (ws : List β), l.map f = ws.map some →
      l.filterMap f = ws := by
  intro l
  induction l with
  | nil => intro ws h; cases ws <;> simp_all
  | cons x xs ih =>
    intro ws h
    cases ws with
    | nil => simp at h
    | cons w ws =>
      simp only [List.map_cons, List.cons.injEq] at h
      simp only [List.filterMap_cons, h.1, ih ws h.2]

/-! ### Lemmas about the lifecycle machine -/

theorem stepMachine_closed (jp : List Char → Except String JsonValue)
    (m : DecoderMachine) (e : StreamEvent) (h : m.phase = .closed) :
    stepMachine jp m e = (m, []) := by
  unfold stepMachine
  rw [h]

theorem runMachine_closed (jp : List Char → Except String JsonValue)
    (m : DecoderMachine) (h : m.phase = .closed) :
    ∀ evs, runMachine jp m evs = (m, []) := by
  intro evs
  induction evs with
  | nil => rfl
  | cons e es ih =>
    simp [runMachine, stepMachine_closed jp m e h, ih]

theorem stepMachine_released_mono (jp : List Char → Except String JsonValue)
    (m : DecoderMachine) (e : StreamEvent)
    (h : m.phase = .closed → m.released = true) :
    ((stepMachine jp m e).1.phase = .closed → (stepMachine jp m e).1.released = true) := by
  unfold stepMachine
  cases hm : m.phase with
  | closed => simpa [hm] using h
  | reading buffer => cases e <;> simp

theorem runMachine_ok (jp : List Char → Except String JsonValue) :
    ∀ (evs : List StreamEvent) (m : DecoderMachine),
      (m.phase = .closed → m.released = true) →
      ((runMachine jp m evs).1.phase = .closed →
        (runMachine jp m evs).1.released = true) := by
  intro evs
  induction evs with
  | nil => intro m h; exact h
  | cons e es ih =>
    intro m h
    simp only [runMachine]
    exact ih _ (stepMachine_released_mono jp m e h)

theorem stepMachine_terminal (jp : List Char → Except String JsonValue)
    (m : DecoderMachine) (e : StreamEvent)
    (hok : m.phase = .closed → m.released = true)
    (he : terminalEvent e = true) :
    (stepMachine jp m e).1.phase = .closed ∧
      (stepMachine jp m e).1.released = true := by
  unfold stepMachine
  cases hm : m.phase with
  | closed => exact ⟨hm, hok hm⟩
  | reading buffer => cases e with
    | chunk d => simp [terminalEvent] at he
    | eof => exact ⟨rfl, rfl⟩
    | readError => exact ⟨rfl, rfl⟩
    | abandon => exact ⟨rfl, rfl⟩

theorem runMachine_append (jp : List Char → Except String JsonValue) :
    ∀ (l₁ l₂ : List StreamEvent) (m : DecoderMachine),
      runMachine jp m (l₁ ++ l₂) =
        ((runMachine jp (runMachine jp m l₁).1 l₂).1,
          (runMachine jp m l₁).2 ++ (runMachine jp (runMachine jp m l₁).1 l₂).2) := by
  intro l₁
  induction l₁ with
  | nil => intro l₂ m; simp [runMachine]
  | cons e es ih =>
    intro l₂ m
    simp only [List.cons_append, runMachine, List.append_eq]
    rw [ih]
    simp [List.append_assoc]

theorem runMachine_models_runChunks (jp : List Char → Except String JsonValue) :
    ∀ (chunks : List (List Char)) (buffer : List Char) (r : Bool),
      (runMachine jp { phase := .reading buffer, released := r }
        (chunks.map .chunk ++ [.eof])).2 = runChunks jp chunks buffer := by
  intro chunks
  induction chunks with
  | nil =>
    intro buffer r
    simp [runMachine, stepMachine, runChunks]
  | cons c cs ih =>
    intro buffer r
    simp only [List.map_cons, List.cons_append, runMachine, stepMachine,
      runChunks, List.append_eq]
    rw [ih]

theorem parseList_eq_mapM (xs : List JsonValue) :
    parseList xs = xs.mapM parse := by
  induction xs with
  | nil => rfl
  | cons x xs ih =>
    rw [List.mapM_cons, parseList, ih]

theorem parseList_ok_pointwise :
    ∀ (xs ys : List JsonValue), parseList xs = .ok ys →
      ys.length = xs.length ∧
        ∀ i (hx : i < xs.length) (hy : i < ys.length),
          parse (xs.get ⟨i, hx⟩) = .ok (ys.get ⟨i, hy⟩) := by
  intro xs
  induction xs with
  | nil =>
    intro ys h
    simp only [parseList] at h
    cases h
    exact ⟨rfl, fun i hx _ => absurd hx (by simp)⟩
  | cons x xs ih =>
    intro ys h
    simp only [parseList] at h
    cases hx : parse x with
    | error e => rw [hx] at h; cases h
    | ok y =>
      rw [hx] at h
      cases hxs : parseList xs with
      | error e => rw [hxs] at h; cases h
      | ok ys' =>
        rw [hxs] at h
        simp only [pure, Except.pure] at h
        cases h
        obtain ⟨hlen, hpt⟩ := ih ys' hxs
        refine ⟨by simp [hlen], ?_⟩
        intro i hix hiy
        cases i with
        | zero => simpa using hx
        | succ j =>
          simp only [List.length_cons, Nat.succ_lt_succ_iff] at hix hiy
          simpa using hpt j hix hiy

theorem parseList_error_of_mem :
    ∀ (xs : List JsonValue) (x : JsonValue), x ∈ xs →
      (∃ e, parse x = .error e) → ∃ e, parseList xs = .error e := by
  intro xs
  induction xs with
  | nil => intro x hx; cases hx
  | cons y ys ih =>
    intro x hx ⟨e, he⟩
    simp only [parseList]
    cases hy : parse y with
    | error e' => exact ⟨e', rfl⟩
    | ok v =>
      rcases List.mem_cons.mp hx with rfl | hmem
      · rw [hy] at he; cases he
      · obtain ⟨e', he'⟩ := ih x hmem ⟨e, he⟩
        rw [he']
        exact ⟨e', rfl⟩

theorem caseTags_subset_specTags (s : String) (h : s ∈ caseTags) :
    s ∈ specTags := by
  fin_cases h <;> simp [specTags]

/-- C4: `parse` on a non-array object whose discriminator field
`__type__` is absent or otherwise falsy fails with the
missing-discriminator error, and on a truthy discriminator that is not
one of the eight recognized tags fails with the unknown-discriminator
error carrying the offending tag value in the message. -/
theorem parse_discriminator_error_cases (fields : List (String × JsonValue)) :
    (truthyOpt ((JsonValue.obj fields).get "__type__") = false →
      parse (JsonValue.obj fields) = .error "Missing __type__ field") ∧
    (∀ tag : JsonValue, (JsonValue.obj fields).get "__type__" = some tag →
      truthy tag = true → (∀ s : String, tag = .str s → s ∉ specTags) →
      parse (JsonValue.obj fields) =
        .error ("Unknown response type " ++ jsToString tag)) := by
  constructor
  · intro hfalsy
    cases hget : (JsonValue.obj fields).get "__type__" with
    | none => simp [parse, parseType, hget]
    | some tag =>
      rw [hget] at hfalsy
      simp only [truthyOpt] at hfalsy
      simp [parse, parseType, hget, hfalsy]
  · intro tag hget htruthy hnot
    simp only [parse, parseType, hget, htruthy, if_true]
    cases tag with
    | str s =>
      have hs : s ∉ specTags := hnot s rfl
      have hmem : s ∉ caseTags := fun hm => hs (caseTags_subset_specTags s hm)
      simp [hmem, jsToString]
    | null => simp [truthy] at htruthy
    | bool b => rfl
    | num n => rfl
    | arr xs => rfl
    | obj o => rfl

/-- C5 counterexample: the claim fails at the tag `schemaData`, one of
the eight recognized discriminator tags: the `switch` in `parseType` has
no `schemaData` case, so a top-level object tagged `schemaData` is
rejected through the `default` branch instead of being returned
unchanged. -/
theorem parse_schemaData_top_level_rejected :
    parse (JsonValue.obj [("__type__", JsonValue.str "schemaData")]) =
      .error "Unknown response type schemaData" := by
  rfl

/-- C5 (amended): for every object carrying one of the seven
discriminator tags handled by the `switch` in `parseType` (`apiError`,
`retrieveResponse`, `errorSchemaData`, `responseStart`, `responseData`,
`earlyTermination`, `responseResult`), `parse` succeeds and returns the
input unchanged, with no field beyond the discriminator validated;
`schemaData` is excluded, a top-level `schemaData` object being
rejected. -/
theorem parse_handled_tags_identity (fields : List (String × JsonValue)) (s : String)
    (hget : (JsonValue.obj fields).get "__type__" = some (JsonValue.str s))
    (hs : s ∈ caseTags) :
    parse (JsonValue.obj fields) = .ok (JsonValue.obj fields) := by
  have hne : s ≠ "" := by
    intro h
    subst h
    exact absurd hs (by decide)
  have htruthy : truthy (JsonValue.str s) = true := by
    simp [truthy, hne]
  simp [parse, parseType, hget, htruthy, hs]

/-- C6: `parse` on an array applies `parse` independently to each
element, preserving order and length; success is exactly pointwise
success with equal lengths, and a single failing element fails the
whole call. -/
theorem parse_array_maps_elementwise (xs : List JsonValue) :
    parse (JsonValue.arr xs) = (xs.mapM parse).map JsonValue.arr ∧
    (∀ ys, parse (JsonValue.arr xs) = .ok (JsonValue.arr ys) →
      ys.length = xs.length ∧
        ∀ i (hx : i < xs.length) (hy : i < ys.length),
          parse (xs.get ⟨i, hx⟩) = .ok (ys.get ⟨i, hy⟩)) ∧
    ((∃ x ∈ xs, ∃ e, parse x = .error e) →
      ∃ e, parse (JsonValue.arr xs) = .error e) := by
  have harr : parse (JsonValue.arr xs) = (parseList xs).map JsonValue.arr := by
    rw [parse]
    cases parseList xs <;> rfl
  refine ⟨by rw [harr, parseList_eq_mapM], ?_, ?_⟩
  · intro ys h
    rw [harr] at h
    cases hxs : parseList xs with
    | error e => rw [hxs] at h; cases h
    | ok zs =>
      rw [hxs] at h
      simp only [Except.map, Except.ok.injEq, JsonValue.arr.injEq] at h
      subst h
      exact parseList_ok_pointwise xs zs hxs
  · intro ⟨x, hx, he⟩
    obtain ⟨e, hee⟩ := parseList_error_of_mem xs x hx he
    exact ⟨e, by rw [harr, hee]; rfl⟩

/-- C1: for every stream of newline-terminated records of which exactly one
fails JSON decoding or discriminated parsing, the streaming decoder yields
exactly the parses of the other records, in order — one object fewer than
the number of records — however the bytes are divided into chunks: the
malformed line is dropped and does not abort the remaining stream. -/
theorem streaming_drops_single_malformed_record
    (jp : List Char → Except String JsonValue)
    (pre post : List (List Char)) (bad : List Char)
    (ws1 ws2 : List JsonValue)
    (hpre : pre.map (processLine jp) = ws1.map some)
    (hpost : post.map (processLine jp) = ws2.map some)
    (hbad : processLine jp bad = none)
    (hnl : ∀ r ∈ pre ++ bad :: post, '\n' ∉ r)
    (chunks : List (List Char))
    (hchunks : chunks.flatten = wire (pre ++ bad :: post)) :
    processChunks jp chunks = ws1 ++ ws2 ∧
      (processChunks jp chunks).length + 1 = (pre ++ bad :: post).length := by
  have hmain : processChunks jp chunks = ws1 ++ ws2 := by
    rw [processChunks_eq_decodeAll, hchunks, decodeAll,
      splitNl_wire _ hnl, List.filterMap_append, List.filterMap_append,
      List.filterMap_cons, hbad]
    rw [filterMap_eq_of_map_eq_some _ pre ws1 hpre,
      filterMap_eq_of_map_eq_some _ post ws2 hpost]
    simp [processLine, isBlank]
  refine ⟨hmain, ?_⟩
  rw [hmain]
  have h1 : ws1.length = pre.length := by
    have := congrArg List.length hpre
    simpa using this.symm
  have h2 : ws2.length = post.length := by
    have := congrArg List.length hpost
    simpa using this.symm
  simp [h1, h2]
  omega

/-- C2: a well-formed newline-terminated JSON record fed to the streaming
decoder split across two arbitrary chunk boundaries yields exactly one
parsed object, identical to the object yielded when the same record is
delivered as a single chunk. -/
theorem streaming_chunk_split_equivalence
    (jp : List Char → Except String JsonValue)
    (rec : List Char) (w : JsonValue)
    (hnl : '\n' ∉ rec) (hrec : processLine jp rec = some w)
    (a b : List Char) (hsplit : a ++ b = rec ++ ['\n']) :
    processChunks jp [a, b] = [w] ∧
      processChunks jp [rec ++ ['\n']] = [w] := by
  have hwire : wire [rec] = rec ++ ['\n'] := by simp [wire]
  have hall : decodeAll jp (rec ++ ['\n']) = [w] := by
    rw [← hwire, decodeAll, splitNl_wire _ (by simpa using hnl)]
    simp only [List.singleton_append, List.filterMap_cons, hrec]
    simp [processLine, isBlank]
  constructor
  · rw [processChunks_eq_decodeAll]
    simpa [hsplit] using hall
  · rw [processChunks_eq_decodeAll]
    simpa using hall

/-- C3: a stream of N well-formed newline-terminated records, however the
text is divided into chunks, yields exactly N parsed objects in exactly
the order the records were received. -/
theorem streaming_preserves_count_and_order
    (jp : List Char → Except String JsonValue)
    (records : List (List Char)) (ws : List JsonValue)
    (hw : records.map (processLine jp) = ws.map some)
    (hnl : ∀ r ∈ records, '\n' ∉ r)
    (chunks : List (List Char))
    (hchunks : chunks.flatten = wire records) :
    processChunks jp chunks = ws ∧
      (processChunks jp chunks).length = records.length := by
  have hmain : processChunks jp chunks = ws := by
    rw [processChunks_eq_decodeAll, hchunks, decodeAll,
      splitNl_wire _ hnl, List.filterMap_append,
      filterMap_eq_of_map_eq_some _ records ws hw]
    simp [processLine, isBlank]
  have hlen : ws.length = records.length := by
    have := congrArg List.length hw
    simpa using this.symm
  exact ⟨hmain, by rw [hmain, hlen]⟩

/-- C7: non-streaming `retrieve` treats HTTP status 200 and 409 alike,
reading the JSON body and parsing it through the discriminated parser —
a 409 yields a parsed body, not an exception — while every other status
fails with the HTTP-error message carrying that status code. -/
theorem retrieve_status_policy (resp : HttpResponse) :
    ((resp.status = 200 ∨ resp.status = 409) →
      retrieveResult resp = parseRetrieve resp.body) ∧
    ((resp.status ≠ 200 ∧ resp.status ≠ 409) →
      retrieveResult resp = .error ("HTTP Error: " ++ toString resp.status)) ∧
    (∀ v, (resp.status = 200 ∨ resp.status = 409) → parse resp.body = .ok v →
      retrieveResult resp = .ok v) := by
  refine ⟨?_, ?_, ?_⟩
  · intro h
    rw [retrieveResult, if_neg]
    rcases h with h | h <;> simp [h]
  · intro h
    rw [retrieveResult, if_pos h]
  · intro v h hv
    rw [retrieveResult, if_neg (by rcases h with h | h <;> simp [h]),
      parseRetrieve, hv]

/-- C8: on every exit path of the streaming decoder — completed
consumption of the stream, a read error, or early abandonment by the
consumer — the per-stream machine reaches the terminal closed phase
with the reader lock released, and from the closed phase every further
event leaves the machine unchanged and emits nothing: no further reads
occur. -/
theorem stream_lifecycle_closes_and_releases
    (jp : List Char → Except String JsonValue)
    (evs₁ : List StreamEvent) (e : StreamEvent) (evs₂ : List StreamEvent)
    (he : terminalEvent e = true) :
    ((runMachine jp initMachine (evs₁ ++ e :: evs₂)).1.phase = .closed ∧
      (runMachine jp initMachine (evs₁ ++ e :: evs₂)).1.released = true) ∧
    (∀ more, runMachine jp (runMachine jp initMachine (evs₁ ++ e :: evs₂)).1 more =
      ((runMachine jp initMachine (evs₁ ++ e :: evs₂)).1, [])) := by
  have hinit : initMachine.phase = .closed → initMachine.released = true := by
    intro h; cases h
  have hok1 := runMachine_ok jp evs₁ initMachine hinit
  set m1 := (runMachine jp initMachine evs₁).1 with hm1
  have hterm := stepMachine_terminal jp m1 e hok1 he
  have hclosed : (runMachine jp initMachine (evs₁ ++ e :: evs₂)).1 =
      (stepMachine jp m1 e).1 := by
    rw [runMachine_append]
    simp only [runMachine]
    rw [(runMachine_closed jp (stepMachine jp m1 e).1 hterm.1 evs₂)]
  refine ⟨⟨by rw [hclosed]; exact hterm.1, by rw [hclosed]; exact hterm.2⟩, ?_⟩
  intro more
  exact runMachine_closed jp _ (by rw [hclosed]; exact hterm.1) more

/-- C9: a falsy `datafileId` (absent, modelled `none`, or the empty
string) makes `buildPath` omit the `datafiles/{id}/` segment entirely,
so `retrieve` and `response` target the same URLs as when no
`datafileId` is supplied; a blank `datafiles//` segment is never
produced, the prefixed form arising only for a non-empty id. -/
theorem buildPath_falsy_datafileId (baseURL endpoint : String) :
    buildPath none endpoint = endpoint ∧
    buildPath (some "") endpoint = endpoint ∧
    retrieveUrl baseURL (some "") = retrieveUrl baseURL none ∧
    responseUrl baseURL (some "") = responseUrl baseURL none ∧
    (∀ id, buildPath (some id) endpoint = endpoint ∨
      (id ≠ "" ∧
        buildPath (some id) endpoint = "datafiles/" ++ id ++ "/" ++ endpoint)) := by
  refine ⟨rfl, rfl, rfl, rfl, ?_⟩
  intro id
  by_cases h : id = ""
  · subst h; exact Or.inl rfl
  · exact Or.inr ⟨h, by rw [buildPath, if_neg h]⟩

/-- C10: a timeout component equal to 0 (falsy) is silently replaced by
its default (connect 5000 ms, read 600000 ms, write 10000 ms): the
constructor tests falsiness of each component rather than absence, so
no configuration can produce a zero timeout component. -/
theorem timeout_falsy_components_defaulted (t : TimeoutOptions) :
    (t.connect = some 0 → (resolveTimeout (some t)).connect = 5000) ∧
    (t.read = some 0 → (resolveTimeout (some t)).read = 600000) ∧
    (t.write = some 0 → (resolveTimeout (some t)).write = 10000) ∧
    (∀ opt : Option TimeoutOptions,
      (resolveTimeout opt).connect ≠ 0 ∧ (resolveTimeout opt).read ≠ 0 ∧
        (resolveTimeout opt).write ≠ 0) ∧
    resolveTimeout none = { connect := 5000, read := 600000, write := 10000 } := by
  have hne : ∀ (x : Option Int) (d : Int), d ≠ 0 → jsOrNum x d ≠ 0 := by
    intro x d hd
    cases x with
    | none => exact hd
    | some n =>
      simp only [jsOrNum]
      split
      · exact hd
      · assumption
  refine ⟨?_, ?_, ?_, ?_, rfl⟩
  · intro h; simp [resolveTimeout, h, jsOrNum]
  · intro h; simp [resolveTimeout, h, jsOrNum]
  · intro h; simp [resolveTimeout, h, jsOrNum]
  · intro opt
    exact ⟨hne _ _ (by decide), hne _ _ (by decide), hne _ _ (by decide)⟩

theorem streaming_drops_single_malformed_record_witness :
    processChunks jpDemo [['a', '\n', 'b', '\n'], ['c', '\n']] =
      [JsonValue.num 1, JsonValue.num 2] ∧
    (processChunks jpDemo [['a', '\n', 'b', '\n'], ['c', '\n']]).length + 1 =
      ([['a']] ++ ['b'] :: [['c']]).length :=
  streaming_drops_single_malformed_record jpDemo [['a']] [['c']] ['b']
    [JsonValue.num 1] [JsonValue.num 2] rfl rfl rfl (by decide)
    [['a', '\n', 'b', '\n'], ['c', '\n']] rfl

theorem streaming_chunk_split_equivalence_witness :
    processChunks jpDemo [['a'], ['\n']] = [JsonValue.num 1] ∧
      processChunks jpDemo [['a', '\n']] = [JsonValue.num 1] :=
  streaming_chunk_split_equivalence jpDemo ['a'] (JsonValue.num 1) (by decide)
    rfl ['a'] ['\n'] rfl

theorem streaming_preserves_count_and_order_witness :
    processChunks jpDemo [['a'], ['\n', 'c', '\n']] =
      [JsonValue.num 1, JsonValue.num 2] ∧
    (processChunks jpDemo [['a'], ['\n', 'c', '\n']]).length =
      ([['a'], ['c']] : List (List Char)).length :=
  streaming_preserves_count_and_order jpDemo [['a'], ['c']]
    [JsonValue.num 1, JsonValue.num 2] rfl (by decide)
    [['a'], ['\n', 'c', '\n']] rfl

theorem parse_discriminator_error_cases_witness :
    parse (JsonValue.obj [("value", JsonValue.num 123)]) =
      .error "Missing __type__ field" ∧
    parse (JsonValue.obj [("__type__", JsonValue.str "bogus")]) =
      .error ("Unknown response type " ++ jsToString (JsonValue.str "bogus")) :=
  ⟨(parse_discriminator_error_cases [("value", JsonValue.num 123)]).1 rfl,
   (parse_discriminator_error_cases [("__type__", JsonValue.str "bogus")]).2
     (JsonValue.str "bogus") rfl rfl
     (fun s h => by injection h with h'; subst h'; decide)⟩

theorem parse_handled_tags_identity_witness :
    parse (JsonValue.obj
      [("__type__", JsonValue.str "responseStart"),
       ("callId", JsonValue.str "call-1")]) =
    .ok (JsonValue.obj
      [("__type__", JsonValue.str "responseStart"),
       ("callId", JsonValue.str "call-1")]) :=
  parse_handled_tags_identity
    [("__type__", JsonValue.str "responseStart"),
     ("callId", JsonValue.str "call-1")] "responseStart" rfl (by decide)

theorem parse_array_maps_elementwise_witness :
    (([JsonValue.num 1, JsonValue.str "s"] : List JsonValue).length =
      ([JsonValue.num 1, JsonValue.str "s"] : List JsonValue).length ∧
      ∀ i (hx : i < ([JsonValue.num 1, JsonValue.str "s"] : List JsonValue).length)
        (hy : i < ([JsonValue.num 1, JsonValue.str "s"] : List JsonValue).length),
        parse (([JsonValue.num 1, JsonValue.str "s"] : List JsonValue).get ⟨i, hx⟩) =
          .ok (([JsonValue.num 1, JsonValue.str "s"] : List JsonValue).get ⟨i, hy⟩)) ∧
    (∃ e, parse (JsonValue.arr [JsonValue.num 1, JsonValue.obj []]) = .error e) :=
  ⟨(parse_array_maps_elementwise [JsonValue.num 1, JsonValue.str "s"]).2.1
      [JsonValue.num 1, JsonValue.str "s"] rfl,
   (parse_array_maps_elementwise [JsonValue.num 1, JsonValue.obj []]).2.2
      ⟨JsonValue.obj [], by simp, "Missing __type__ field", rfl⟩⟩

theorem retrieve_status_policy_witness :
    retrieveResult
      ⟨409, JsonValue.obj [("__type__", JsonValue.str "retrieveResponse")]⟩ =
      .ok (JsonValue.obj [("__type__", JsonValue.str "retrieveResponse")]) ∧
    retrieveResult ⟨500, JsonValue.null⟩ =
      .error ("HTTP Error: " ++ toString (500 : Nat)) :=
  ⟨(retrieve_status_policy
      ⟨409, JsonValue.obj [("__type__", JsonValue.str "retrieveResponse")]⟩).2.2
      _ (Or.inr rfl) rfl,
   (retrieve_status_policy ⟨500, JsonValue.null⟩).2.1 ⟨by decide, by decide⟩⟩

theorem stream_lifecycle_closes_and_releases_witness :
    (runMachine jpDemo initMachine
      [StreamEvent.chunk ['a'], StreamEvent.eof]).1.phase = StreamPhase.closed ∧
    (runMachine jpDemo initMachine
      [StreamEvent.chunk ['a'], StreamEvent.eof]).1.released = true :=
  (stream_lifecycle_closes_and_releases jpDemo [StreamEvent.chunk ['a']]
    StreamEvent.eof [] rfl).1

theorem timeout_falsy_components_defaulted_witness :
    (resolveTimeout (some ⟨some 0, some 0, some 0⟩)).connect = 5000 ∧
    (resolveTimeout (some ⟨some 0, some 0, some 0⟩)).read = 600000 ∧
    (resolveTimeout (some ⟨some 0, some 0, some 0⟩)).write = 10000 :=
  ⟨(timeout_falsy_components_defaulted ⟨some 0, some 0, some 0⟩).1 rfl,
   (timeout_falsy_components_defaulted ⟨some 0, some 0, some 0⟩).2.1 rfl,
   (timeout_falsy_components_defaulted ⟨some 0, some 0, some 0⟩).2.2.1 rfl⟩
